import Mathlib

/-!
Shallow embedding of the skyproject message bus and orchestrator
(src/skyproject/core/communication.py, src/skyproject/core/orchestrator.py,
src/skyproject/core/config.py, src/skyproject/shared/models.py).

Modelling conventions:
* Python `asyncio` single-threaded cooperative scheduling: each bus operation
  is a pure state transformer; points where an operation would cooperatively
  suspend are made explicit (an `Option` result where `none` means "the call
  has not completed yet / would block", or an explicit environment-event list
  consumed one event per poll-sleep).
* Python dictionaries are association lists `List (String × α)`;
  `defaultdict(list)` lookups default to `[]`.
* The float literals `0.8` and `0.2` in `adjust_queue_sizes` and float
  division in `average_load` are modelled exactly over `ℚ`.
* The best-effort JSONL audit write in `_log_message` (I/O errors are caught
  and logged, never raised) is modelled as a successful append to a `log`
  list.
* Message handlers are opaque tokens (`Nat`); dispatching a handler is
  recorded by returning the list of fired tokens.
-/

namespace Sky

/-- `skyproject.shared.models.Message` (pydantic model); `payload` and
`timestamp` are opaque to the bus and folded into one `payload` field. -/
structure Message where
  id : String
  sender : String
  receiver : String
  msg_type : String
  payload : String
  deriving DecidableEq, Repr

/-- `Config.MAX_RETRIES` from src/skyproject/core/config.py. -/
def MAX_RETRIES : Nat := 3

/-- `Config.MAX_QUEUE_SIZE` default (env default "100"). -/
def MAX_QUEUE_SIZE : Nat := 100

/-- `deque(maxlen=100)` bound of `ResizableQueue._historical_load`. -/
def HIST_MAXLEN : Nat := 100

/-- `ResizableQueue(asyncio.Queue)`: FIFO buffer, mutable `_maxsize`,
rolling load window. -/
structure ResizableQueue where
  buffer : List Message
  maxsize : Nat
  historicalLoad : List Nat
  deriving DecidableEq, Repr

/-- `asyncio.Queue.full`: `False` when `maxsize <= 0`, else
`qsize() >= maxsize`. -/
def ResizableQueue.full (q : ResizableQueue) : Bool :=
  if q.maxsize = 0 then false else decide (q.maxsize ≤ q.buffer.length)

/-- `ResizableQueue.resize`: sets `_maxsize` only. -/
def ResizableQueue.resize (q : ResizableQueue) (new_maxsize : Nat) : ResizableQueue :=
  { q with maxsize := new_maxsize }

/-- `ResizableQueue.record_load`: append to the bounded deque
(`maxlen=100` evicts from the left). -/
def ResizableQueue.record_load (q : ResizableQueue) (load : Nat) : ResizableQueue :=
  { q with historicalLoad :=
      (q.historicalLoad ++ [load]).drop ((q.historicalLoad.length + 1) - HIST_MAXLEN) }

/-- `ResizableQueue.average_load`: mean of the window, `0` when empty. -/
def ResizableQueue.average_load (q : ResizableQueue) : ℚ :=
  if q.historicalLoad = [] then 0
  else ((q.historicalLoad.sum : ℚ) / (q.historicalLoad.length : ℚ))

/-- Association-list lookup (Python `dict.get` / `in`). -/
def lookupA {α : Type} (k : String) : List (String × α) → Option α
  | [] => none
  | (k', v) :: rest => if k = k' then some v else lookupA k rest

/-- Update the value bound to an existing key, leaving the key set unchanged
(Python mutation of a stored object). -/
def updateA {α : Type} (k : String) (f : α → α) : List (String × α) → List (String × α)
  | [] => []
  | (k', v) :: rest => if k = k' then (k', f v) :: rest else (k', v) :: updateA k f rest

/-- Bind a key (Python `d[k] = v`): replace if present, else append. -/
def setA {α : Type} (k : String) (v : α) : List (String × α) → List (String × α)
  | [] => [(k, v)]
  | (k', v') :: rest => if k = k' then (k', v) :: rest else (k', v') :: setA k v rest

/-- `MessageBus` state: receiver queues, subscriptions, in-memory history,
audit log, pending-acknowledgment map (`asyncio.Event` modelled as its
is-set flag). -/
structure MessageBus where
  queues : List (String × ResizableQueue)
  handlers : List (String × List Nat)
  history : List Message
  log : List Message
  acknowledgments : List (String × Bool)
  deriving DecidableEq, Repr

/-- The queue map built by `MessageBus.__init__`: exactly "pm" and "irgat",
each bounded by `Config.MAX_QUEUE_SIZE`. -/
def initBus : MessageBus :=
  { queues := [("pm", { buffer := [], maxsize := MAX_QUEUE_SIZE, historicalLoad := [] }),
               ("irgat", { buffer := [], maxsize := MAX_QUEUE_SIZE, historicalLoad := [] })]
    handlers := []
    history := []
    log := []
    acknowledgments := [] }

/-- Handlers subscribed to a message type (`defaultdict(list)` semantics). -/
def handlersOf (s : MessageBus) (msg_type : String) : List Nat :=
  (lookupA msg_type s.handlers).getD []

/-- `MessageBus.subscribe`. -/
def subscribe (s : MessageBus) (msg_type : String) (h : Nat) : MessageBus :=
  { s with handlers := setA msg_type (handlersOf s msg_type ++ [h]) s.handlers }

/-- `MessageBus.send`, as the state transformation observed when the call
completes without suspending in `_handle_backpressure`.  The result is
`none` when the target queue is full (the caller would be suspended by the
backpressure poll loop; the fine-grained view of that wait is
`handle_backpressure` below).  On completion it returns the new bus state
and the tokens of the handlers fired for `message.msg_type`.  The history
append and audit-log write happen unconditionally before queue lookup;
creating `asyncio.Event()` for the pending ack is binding the id to an
unset flag; spawning `_wait_for_acknowledgment` and the handler tasks is
recorded, not executed. -/
def send (s : MessageBus) (message : Message) : Option (MessageBus × List Nat) :=
  let s1 := { s with history := s.history ++ [message], log := s.log ++ [message] }
  match lookupA message.receiver s1.queues with
  | none => some (s1, handlersOf s1 message.msg_type)
  | some target_queue =>
      if target_queue.full then none
      else
        some ({ s1 with
                  queues :=
                    updateA message.receiver
                      (fun q => { q with buffer := q.buffer ++ [message] }) s1.queues,
                  acknowledgments := setA message.id false s1.acknowledgments },
              handlersOf s1 message.msg_type)

/-- Core of `MessageBus.acknowledge` on the acknowledgment map: set the
event if the id is tracked, else do nothing. -/
def ackKey (message_id : String) (acks : List (String × Bool)) : List (String × Bool) :=
  match lookupA message_id acks with
  | none => acks
  | some _ => setA message_id true acks

/-- `MessageBus.acknowledge`. -/
def acknowledge (s : MessageBus) (message_id : String) : MessageBus :=
  { s with acknowledgments := ackKey message_id s.acknowledgments }

/-- Result of `MessageBus.receive`: value returned, bus state afterwards,
and how long the call waited (0 = returned immediately, `timeout` = waited
out the full `asyncio.wait_for` window). -/
structure ReceiveResult where
  msg : Option Message
  bus : MessageBus
  waited : ℚ
  deriving DecidableEq, Repr

/-- `MessageBus.receive` in the quiescent case (no concurrent producer
during the wait): an unregistered receiver returns `None` at once; an empty
queue waits out `timeout` and returns `None`; otherwise the head message is
dequeued, acknowledged and returned immediately. -/
def receive (s : MessageBus) (receiver : String) (timeout : ℚ) : ReceiveResult :=
  match lookupA receiver s.queues with
  | none => { msg := none, bus := s, waited := 0 }
  | some queue =>
      match queue.buffer with
      | [] => { msg := none, bus := s, waited := timeout }
      | message :: _ =>
          let dequeued : MessageBus :=
            { s with queues :=
                updateA receiver (fun q => { q with buffer := q.buffer.tail }) s.queues }
          { msg := some message, bus := acknowledge dequeued message.id, waited := 0 }

/-- The `while not queue.empty()` drain loop of `MessageBus.receive_all`:
pop each buffered message in FIFO order, acknowledging as it goes. -/
def drainLoop (acks : List (String × Bool)) :
    List Message → List Message × List (String × Bool)
  | [] => ([], acks)
  | message :: rest =>
      let acks' := ackKey message.id acks
      let (ms, acks'') := drainLoop acks' rest
      (message :: ms, acks'')

/-- `MessageBus.receive_all`. -/
def receive_all (s : MessageBus) (receiver : String) : List Message × MessageBus :=
  match lookupA receiver s.queues with
  | none => ([], s)
  | some queue =>
      let (ms, acks') := drainLoop s.acknowledgments queue.buffer
      (ms, { s with
               queues :=
                 updateA receiver (fun q => { q with buffer := [] }) s.queues,
               acknowledgments := acks' })

/-- `MessageBus.get_history`: Python `self._history[-limit:]` (note that
`limit = 0` yields the whole list, since `l[-0:] = l[0:]`). -/
def get_history (s : MessageBus) (limit : Nat) : List Message :=
  if limit = 0 then s.history else s.history.drop (s.history.length - limit)

/-- One environment event that can happen while `_handle_backpressure`
sleeps: a consumer dequeues, the load monitor resizes, or nothing. -/
inductive EnvEvent
  | dequeue
  | resizeTo (n : Nat)
  | idle
  deriving DecidableEq, Repr

/-- Effect of an environment event on a queue. -/
def applyEnv (q : ResizableQueue) : EnvEvent → ResizableQueue
  | .dequeue => { q with buffer := q.buffer.tail }
  | .resizeTo n => q.resize n
  | .idle => q

/-- `MessageBus._handle_backpressure`: poll `queue.full()`; while full,
sleep (consuming one environment event per poll interval); once not full,
`queue.put` appends the message.  `none` means the events ran out with the
queue still full, i.e. the call is still cooperatively suspended — there is
no error outcome and the message is never dropped. -/
def handle_backpressure (message : Message) :
    ResizableQueue → List EnvEvent → Option ResizableQueue
  | q, env =>
      if q.full then
        match env with
        | [] => none
        | e :: rest => handle_backpressure message (applyEnv q e) rest
      else some { q with buffer := q.buffer ++ [message] }

/-- Observable outcome of one `_wait_for_acknowledgment` task: the backoff
delay slept before each resend (so `resendDelays.length` is the number of
resend attempts performed) and whether the `del self._acknowledgments[...]`
cleanup ran. -/
structure WaitObs where
  resendDelays : List Nat
  ackRemoved : Bool
  deriving DecidableEq, Repr

/-- The `for attempt in range(max_retries)` loop of
`MessageBus._wait_for_acknowledgment`, structurally recursing on the number
of remaining attempts; `acked attempt` tells whether the completion event
gets set during attempt number `attempt`'s 30-second wait.  On success the
record is deleted and the task returns; on timeout it resends only when
`attempt < max_retries - 1` (i.e. `remaining > 1`), sleeping `2 ^ attempt`
first; falling out of the loop leaves the record in place. -/
def wait_for_ack_loop (acked : Nat → Bool) (attempt : Nat) :
    Nat → WaitObs
  | 0 => { resendDelays := [], ackRemoved := false }
  | remaining + 1 =>
      if acked attempt then { resendDelays := [], ackRemoved := true }
      else if remaining = 0 then
        wait_for_ack_loop acked (attempt + 1) remaining
      else
        let rest := wait_for_ack_loop acked (attempt + 1) remaining
        { rest with resendDelays := 2 ^ attempt :: rest.resendDelays }

/-- `MessageBus._wait_for_acknowledgment` for a message whose ack event is
set during attempt `n` iff `acked n`. -/
def wait_for_acknowledgment (acked : Nat → Bool) : WaitObs :=
  wait_for_ack_loop acked 0 MAX_RETRIES

/-- The capacity rule applied per queue by one pass of
`MessageBus.adjust_queue_sizes` (the float factors `0.8`, `0.2` taken
exactly): `base` is `Config.MAX_QUEUE_SIZE`. -/
def adjustCapacity (average_load : ℚ) (maxsize base : Nat) : Nat :=
  if average_load > (maxsize : ℚ) * (4 / 5) then
    min (maxsize * 2) (base * 10)
  else if average_load < (maxsize : ℚ) * (1 / 5) ∧ maxsize > base then
    max (maxsize / 2) base
  else maxsize

/-- One `adjust_queue_sizes` pass over a single queue: record the current
depth, then resize by the capacity rule. -/
def adjustQueuePass (base : Nat) (q : ResizableQueue) : ResizableQueue :=
  let q1 := q.record_load q.buffer.length
  q1.resize (adjustCapacity q1.average_load q1.maxsize base)

/-- One timer tick of `MessageBus.adjust_queue_sizes` over all queues. -/
def adjust_queue_sizes (s : MessageBus) : MessageBus :=
  { s with queues := s.queues.map (fun kq => (kq.1, adjustQueuePass MAX_QUEUE_SIZE kq.2)) }

/-- The capacity-adjustment rule as the specification words it: above the
80% high-water fraction of current capacity, double up to 10× the
configured base; below the 20% low-water fraction with capacity above the
base, halve down to the base; otherwise unchanged. -/
def specCapacityRule (avg : ℚ) (capacity base : Nat) : Nat :=
  if avg > (4 / 5 : ℚ) * (capacity : ℚ) then
    min (2 * capacity) (10 * base)
  else if avg < (1 / 5 : ℚ) * (capacity : ℚ) ∧ base < capacity then
    max base (capacity / 2)
  else capacity

/-!
Orchestrator (src/skyproject/core/orchestrator.py).

`Orchestrator.run` is a `while self._running` loop; each iteration awaits
`_run_cycle()` inside `try`, with `except asyncio.CancelledError: break`
and `except Exception: <log, sleep 5>` (the loop then re-tests
`self._running` and runs the next round).  `_run_cycle` awaits
`self.pm.run_cycle()` to completion and only then awaits
`self.irgat.run_cycle()`.
-/

/-- What one awaited `_run_cycle()` produced, as seen by `run`'s
`try`/`except`: a normal result, an `asyncio.CancelledError`, or any other
exception (`Exception` subclass), carried as an opaque description. -/
inductive CycleOutcome
  | ok (result : Nat)
  | cancelled
  | exc (e : String)
  deriving DecidableEq, Repr

/-- The orchestrator state touched by the loop: the cooperative
`_running` flag and `state.cycle_count`. -/
structure OrchState where
  running : Bool
  cycleCount : Nat
  deriving DecidableEq, Repr

/-- Whether the loop body falls through to the next iteration or breaks. -/
inductive LoopControl
  | next
  | brk
  deriving DecidableEq, Repr

/-- One iteration body of `Orchestrator.run`'s `while` loop, given the
outcome of `await self._run_cycle()`: on success the cycle counter is
bumped (hooks, reports, maintenance elided) and the loop sleeps then
continues; on `CancelledError` the loop breaks; on any other exception it
is caught, logged, the loop sleeps 5 seconds and continues.  Totality of
this function is the embedding of "the exception does not propagate out of
`run()`". -/
def runStep (s : OrchState) : CycleOutcome → OrchState × LoopControl
  | .ok _ => ({ s with cycleCount := s.cycleCount + 1 }, .next)
  | .cancelled => (s, .brk)
  | .exc _ => (s, .next)

/-- `Orchestrator.run`'s loop over a schedule of cycle outcomes (the
schedule ends when the process is stopped). -/
def runLoop (s : OrchState) : List CycleOutcome → OrchState
  | [] => s
  | o :: rest =>
      if s.running then
        match runStep s o with
        | (s', .next) => runLoop s' rest
        | (s', .brk) => s'
      else s

/-- The two agents driven by `_run_cycle`. -/
inductive AgentId
  | pm
  | irgat
  deriving DecidableEq, Repr

/-- Scheduling events attributable to one agent's `run_cycle`
invocation. -/
inductive CycleEv
  | start (a : AgentId)
  | work (a : AgentId)
  | finish (a : AgentId)
  deriving DecidableEq, Repr

/-- The agent an event belongs to. -/
def CycleEv.agent : CycleEv → AgentId
  | .start a => a
  | .work a => a
  | .finish a => a

/-- The event trace of one awaited `agent.run_cycle()` call whose body
takes `steps` internal steps. -/
def agentTrace (a : AgentId) (steps : Nat) : List CycleEv :=
  .start a :: (List.replicate steps (.work a) ++ [.finish a])

/-- The event trace of `Orchestrator._run_cycle`: `await pm.run_cycle()`
runs to completion strictly before `await irgat.run_cycle()` starts. -/
def runCycleTrace (pmSteps irgatSteps : Nat) : List CycleEv :=
  agentTrace .pm pmSteps ++ agentTrace .irgat irgatSteps

/-- `Orchestrator.run_single_cycle` just delegates to `_run_cycle`. -/
def runSingleCycleTrace (pmSteps irgatSteps : Nat) : List CycleEv :=
  runCycleTrace pmSteps irgatSteps

/-- `send` iterated `k` times on the same message: the resends performed by
the retry mechanism (`await self.send(message)` in
`_wait_for_acknowledgment`). -/
def resendN (message : Message) : Nat → MessageBus → Option MessageBus
  | 0, s => some s
  | k + 1, s =>
      match send s message with
      | none => none
      | some (s', _) => resendN message k s'

/-- The bus state after a completed `send` (unchanged when the call would
still be suspended). -/
def sendState (s : MessageBus) (message : Message) : MessageBus :=
  match send s message with
  | none => s
  | some (s', _) => s'

/-- The bus state after `k` completed resends. -/
def resendStateN (message : Message) (k : Nat) (s : MessageBus) : MessageBus :=
  match resendN message k s with
  | none => s
  | some s' => s'

/-- Sample message addressed to the registered "pm" queue. -/
def mPm1 : Message :=
  { id := "m1", sender := "irgat", receiver := "pm", msg_type := "status_update",
    payload := "p1" }

/-- A second sample message addressed to the "pm" queue. -/
def mPm2 : Message :=
  { id := "m2", sender := "irgat", receiver := "pm", msg_type := "status_update",
    payload := "p2" }

/-- Sample message addressed to a receiver with no registered queue. -/
def mNoQueue : Message :=
  { id := "m3", sender := "pm", receiver := "telegram", msg_type := "task_assign",
    payload := "p3" }

/-! ### Association-list lemmas -/

theorem lookupA_updateA {α : Type} (k : String) (f : α → α) (l : List (String × α)) :
    lookupA k (updateA k f l) = (lookupA k l).map f := by
  induction l with
  | nil => simp [lookupA, updateA]
  | cons kv rest ih =>
      obtain ⟨k', v⟩ := kv
      by_cases h : k = k' <;> simp [lookupA, updateA, h, ih]

theorem updateA_map_fst {α : Type} (k : String) (f : α → α) (l : List (String × α)) :
    (updateA k f l).map Prod.fst = l.map Prod.fst := by
  induction l with
  | nil => simp [updateA]
  | cons kv rest ih =>
      obtain ⟨k', v⟩ := kv
      by_cases h : k = k' <;> simp [updateA, h, ih]

theorem lookupA_setA {α : Type} (k : String) (v : α) (l : List (String × α)) :
    lookupA k (setA k v l) = some v := by
  induction l with
  | nil => simp [lookupA, setA]
  | cons kv rest ih =>
      obtain ⟨k', v'⟩ := kv
      by_cases h : k = k' <;> simp [lookupA, setA, h, ih]

theorem setA_setA {α : Type} (k : String) (v : α) (l : List (String × α)) :
    setA k v (setA k v l) = setA k v l := by
  induction l with
  | nil => simp [setA]
  | cons kv rest ih =>
      obtain ⟨k', v'⟩ := kv
      by_cases h : k = k' <;> simp [setA, h, ih]

/-- `ackKey` is idempotent on the acknowledgment map. -/
theorem ackKey_idem (i : String) (a : List (String × Bool)) :
    ackKey i (ackKey i a) = ackKey i a := by
  unfold ackKey
  cases h : lookupA i a with
  | none => simp [h]
  | some b => simp [h, lookupA_setA, setA_setA]

/-! ### Claim theorems -/

/-- Claim C8: `acknowledge` is total (it is a function), a no-op on an id
with no pending-ack record, and idempotent: acknowledging the same id
twice leaves the bus exactly as acknowledging it once. -/
theorem acknowledge_idempotent_total (s : MessageBus) (message_id : String) :
    (lookupA message_id s.acknowledgments = none → acknowledge s message_id = s) ∧
    acknowledge (acknowledge s message_id) message_id = acknowledge s message_id := by
  constructor
  · intro h
    simp [acknowledge, ackKey, h]
  · simp [acknowledge, ackKey_idem]

/-- Witness for C8 at a concrete bus holding one pending record. -/
theorem acknowledge_idempotent_total_witness :
    (lookupA "zz" { initBus with acknowledgments := [("a", false)] }.acknowledgments
        = none → acknowledge { initBus with acknowledgments := [("a", false)] } "zz"
        = { initBus with acknowledgments := [("a", false)] }) ∧
    acknowledge (acknowledge { initBus with acknowledgments := [("a", false)] } "a") "a"
      = acknowledge { initBus with acknowledgments := [("a", false)] } "a" :=
  acknowledge_idempotent_total { initBus with acknowledgments := [("a", false)] } "zz"
    |>.imp id (fun _ => (acknowledge_idempotent_total
      { initBus with acknowledgments := [("a", false)] } "a").2)

/-- Claim C7: sending to a receiver with no registered queue still fires
every handler subscribed to the message type, completes without blocking
on any queue (the result is `some`), creates no pending-ack record, and
touches no queue. -/
theorem send_unregistered_receiver (s : MessageBus) (m : Message)
    (h : lookupA m.receiver s.queues = none) :
    send s m = some ({ s with history := s.history ++ [m], log := s.log ++ [m] },
      handlersOf s m.msg_type) ∧
    ∀ s' hs, send s m = some (s', hs) →
      s'.acknowledgments = s.acknowledgments ∧ s'.queues = s.queues ∧
      hs = handlersOf s m.msg_type := by
  have hsend : send s m
      = some ({ s with history := s.history ++ [m], log := s.log ++ [m] },
          handlersOf s m.msg_type) := by
    simp [send, h, handlersOf]
  refine ⟨hsend, ?_⟩
  intro s' hs h'
  rw [hsend] at h'
  simp only [Option.some.injEq, Prod.mk.injEq] at h'
  obtain ⟨h1, h2⟩ := h'
  subst h1
  exact ⟨rfl, rfl, h2.symm⟩

/-- Counterexample to claim C1 as stated: for a message that is never
acknowledged, one `_wait_for_acknowledgment` task performs 2 resend
attempts, not `MAX_RETRIES = 3` (the code skips the resend after the final
timeout), and the pending-ack record is not removed (the `del` runs only on
the acknowledged path). -/
theorem retry_claim_counterexample :
    (wait_for_acknowledgment (fun _ => false)).resendDelays.length ≠ MAX_RETRIES ∧
    (wait_for_acknowledgment (fun _ => false)).ackRemoved = false := by
  decide

/-- Claim C1, amended: for a message whose ack event is never set, an
acknowledgment-wait task performs exactly `MAX_RETRIES - 1 = 2` resend
attempts with non-decreasing inter-attempt delay (exponential backoff
`2 ^ attempt`: 1s then 2s), and after the final attempt the pending-ack
record is NOT removed — it stays in the acknowledgment map. -/
theorem retry_resends_and_record_corrected (acked : Nat → Bool)
    (h : ∀ n, acked n = false) :
    (wait_for_acknowledgment acked).resendDelays = [1, 2] ∧
    (wait_for_acknowledgment acked).resendDelays.length = MAX_RETRIES - 1 ∧
    List.Chain' (fun a b => a ≤ b) (wait_for_acknowledgment acked).resendDelays ∧
    (wait_for_acknowledgment acked).ackRemoved = false := by
  have hfun : acked = fun _ => false := funext h
  subst hfun
  refine ⟨rfl, rfl, ?_, rfl⟩
  show List.Chain' (fun a b => a ≤ b) [1, 2]
  exact List.chain'_pair.mpr (by norm_num)

/-- Witness for the amended C1 at the concrete never-acked schedule. -/
theorem retry_resends_and_record_witness :
    (wait_for_acknowledgment (fun _ => false)).resendDelays = [1, 2] ∧
    (wait_for_acknowledgment (fun _ => false)).resendDelays.length = MAX_RETRIES - 1 ∧
    List.Chain' (fun a b => a ≤ b)
      (wait_for_acknowledgment (fun _ => false)).resendDelays ∧
    (wait_for_acknowledgment (fun _ => false)).ackRemoved = false :=
  retry_resends_and_record_corrected (fun _ => false) (fun _ => rfl)

/-- A completed put step of the backpressure loop keeps the buffer within
the current bound and ends with the message appended. -/
theorem put_step_bound (m : Message) (q q' : ResizableQueue)
    (hf : q.full = false)
    (h : { q with buffer := q.buffer ++ [m] } = q') :
    q'.buffer.getLast? = some m ∧
    (0 < q'.maxsize → q'.buffer.length ≤ q'.maxsize) := by
  subst h
  refine ⟨by simp, ?_⟩
  intro hpos
  have hne : q.maxsize ≠ 0 := Nat.pos_iff_ne_zero.mp hpos
  unfold ResizableQueue.full at hf
  rw [if_neg hne] at hf
  simp only [decide_eq_false_iff_not, not_le] at hf
  simp only [List.length_append, List.length_cons, List.length_nil]
  omega

/-- Claim C2: resizing never removes buffered items; and whenever the
backpressure enqueue completes (there is no error or drop outcome — the
only non-completion is remaining cooperatively suspended), the message is
appended at the tail and the buffer length does not exceed the queue's
current capacity bound. -/
theorem backpressure_safe (m : Message) :
    (∀ (q : ResizableQueue) (n : Nat), (q.resize n).buffer = q.buffer) ∧
    ∀ (env : List EnvEvent) (q q' : ResizableQueue),
      handle_backpressure m q env = some q' →
      q'.buffer.getLast? = some m ∧
      (0 < q'.maxsize → q'.buffer.length ≤ q'.maxsize) := by
  refine ⟨fun q n => rfl, ?_⟩
  intro env
  induction env with
  | nil =>
      intro q q' h
      unfold handle_backpressure at h
      by_cases hf : q.full
      · simp [hf] at h
      · simp only [hf, Bool.false_eq_true, if_false, Option.some.injEq] at h
        exact put_step_bound m q q' (by simpa using hf) h
  | cons e rest ih =>
      intro q q' h
      unfold handle_backpressure at h
      by_cases hf : q.full
      · simp only [hf, if_true] at h
        exact ih (applyEnv q e) q' h
      · simp only [hf, Bool.false_eq_true, if_false, Option.some.injEq] at h
        exact put_step_bound m q q' (by simpa using hf) h

/-- Witness for C2: a full queue (one slot, one occupant) frees a slot via
a consumer dequeue, after which the enqueue completes within the bound. -/
theorem backpressure_safe_witness :
    (ResizableQueue.resize ⟨[mPm1], 1, []⟩ 5).buffer = [mPm1] ∧
    (⟨[mPm2], 1, []⟩ : ResizableQueue).buffer.getLast? = some mPm2 ∧
    (0 < (⟨[mPm2], 1, []⟩ : ResizableQueue).maxsize →
      (⟨[mPm2], 1, []⟩ : ResizableQueue).buffer.length
        ≤ (⟨[mPm2], 1, []⟩ : ResizableQueue).maxsize) := by
  have happ := (backpressure_safe mPm2).2 [EnvEvent.dequeue] ⟨[mPm1], 1, []⟩
    ⟨[mPm2], 1, []⟩ (by decide)
  exact ⟨(backpressure_safe mPm2).1 ⟨[mPm1], 1, []⟩ 5, happ.1, happ.2⟩

/-- Claim C3: each capacity-adjustment pass applies exactly the stated
rule.  The per-queue pass records the current depth and resizes by
`adjustCapacity`, which coincides with the rule as the specification words
it: above 80% of current capacity double (capped at 10× the base), below
20% with capacity above the base halve (floored at the base), otherwise
unchanged. -/
theorem adjust_rule_correct (avg : ℚ) (capacity base : Nat) :
    adjustCapacity avg capacity base = specCapacityRule avg capacity base ∧
    (avg > (capacity : ℚ) * (4 / 5) →
      adjustCapacity avg capacity base = min (capacity * 2) (base * 10)) ∧
    (avg < (capacity : ℚ) * (1 / 5) → base < capacity →
      adjustCapacity avg capacity base = max (capacity / 2) base) ∧
    (¬ avg > (capacity : ℚ) * (4 / 5) →
      ¬ (avg < (capacity : ℚ) * (1 / 5) ∧ capacity > base) →
      adjustCapacity avg capacity base = capacity) ∧
    (∀ q : ResizableQueue, (adjustQueuePass base q).maxsize
        = adjustCapacity (q.record_load q.buffer.length).average_load q.maxsize base ∧
      (adjustQueuePass base q).buffer = q.buffer) := by
  refine ⟨?_, ?_, ?_, ?_, fun q => ⟨rfl, rfl⟩⟩
  · have e1 : (4 / 5 : ℚ) * (capacity : ℚ) = (capacity : ℚ) * (4 / 5) := mul_comm _ _
    have e2 : (1 / 5 : ℚ) * (capacity : ℚ) = (capacity : ℚ) * (1 / 5) := mul_comm _ _
    simp only [adjustCapacity, specCapacityRule, gt_iff_lt, e1, e2]
    split_ifs with h1 h2
    · omega
    · omega
    · rfl
  · intro h
    simp only [adjustCapacity]
    rw [if_pos h]
  · intro hlow hbc
    have hnot : ¬ avg > (capacity : ℚ) * (4 / 5) := by
      intro hhigh
      have hmono : (capacity : ℚ) * (1 / 5) ≤ (capacity : ℚ) * (4 / 5) :=
        mul_le_mul_of_nonneg_left (by norm_num) (Nat.cast_nonneg _)
      have : avg < avg := lt_of_lt_of_le (lt_of_lt_of_le hlow hmono) (le_of_lt hhigh)
      exact absurd this (lt_irrefl _)
    simp only [adjustCapacity]
    rw [if_neg hnot, if_pos ⟨hlow, hbc⟩]
  · intro hn1 hn2
    simp only [adjustCapacity]
    rw [if_neg hn1, if_neg hn2]

/-- Witness for C3 on concrete loads: a hot queue (avg 90 of 100) doubles,
a cold oversized queue (avg 10 of 200, base 100) halves, a nominal queue
(avg 50 of 100) is untouched. -/
theorem adjust_rule_correct_witness :
    adjustCapacity 90 100 100 = specCapacityRule 90 100 100 ∧
    adjustCapacity 90 100 100 = min (100 * 2) (100 * 10) ∧
    adjustCapacity 10 200 100 = max (200 / 2) 100 ∧
    adjustCapacity 50 100 100 = 100 := by
  refine ⟨(adjust_rule_correct 90 100 100).1,
    (adjust_rule_correct 90 100 100).2.1 (by norm_num),
    (adjust_rule_correct 10 200 100).2.2.1 (by norm_num) (by norm_num),
    (adjust_rule_correct 50 100 100).2.2.2.1 (by norm_num) ?_⟩
  rintro ⟨hlt, -⟩
  norm_num at hlt

/-- Claim C5: an exception thrown by a cycle (any `Exception` raised by
either agent's `run_cycle` inside `_run_cycle`) is consumed by the loop
body (`runStep` is total, so nothing propagates out of `run()`), leaves the
`_running` flag set, and the loop proceeds to the remaining rounds. -/
theorem cycle_error_caught (s : OrchState) (e : String) (rest : List CycleOutcome)
    (h : s.running = true) :
    runStep s (.exc e) = (s, .next) ∧
    (runStep s (.exc e)).1.running = true ∧
    runLoop s (.exc e :: rest) = runLoop s rest := by
  refine ⟨rfl, h, ?_⟩
  simp [runLoop, runStep, h]

/-- Witness for C5 at a concrete running orchestrator. -/
theorem cycle_error_caught_witness :
    runStep ⟨true, 0⟩ (.exc "boom") = (⟨true, 0⟩, .next) ∧
    (runStep ⟨true, 0⟩ (.exc "boom")).1.running = true ∧
    runLoop ⟨true, 0⟩ (.exc "boom" :: [.ok 7]) = runLoop ⟨true, 0⟩ [.ok 7] :=
  cycle_error_caught ⟨true, 0⟩ "boom" [.ok 7] rfl

/-- Every event of one agent's `run_cycle` trace belongs to that agent. -/
theorem mem_agentTrace (a : AgentId) (n : Nat) (e : CycleEv)
    (h : e ∈ agentTrace a n) : e.agent = a := by
  simp only [agentTrace, List.mem_cons, List.mem_append, List.mem_replicate,
    List.mem_singleton, List.not_mem_nil, or_false] at h
  rcases h with h | ⟨-, h⟩ | h <;> subst h <;> rfl

/-- Claim C6: within one `_run_cycle` round (and `run_single_cycle`, which
delegates to it), every event of the planning agent's `run_cycle` occurs
strictly before every event of the execution agent's `run_cycle`: the
execution agent is never started before the planner has finished. -/
theorem run_cycle_order (p q i j : Nat) (e1 e2 : CycleEv)
    (h1 : (runCycleTrace p q)[i]? = some e1) (ha1 : e1.agent = .pm)
    (h2 : (runCycleTrace p q)[j]? = some e2) (ha2 : e2.agent = .irgat) :
    i < j ∧ runSingleCycleTrace p q = runCycleTrace p q := by
  refine ⟨?_, rfl⟩
  have hi : i < (agentTrace .pm p).length := by
    by_contra hge
    push_neg at hge
    rw [runCycleTrace, List.getElem?_append_right hge] at h1
    have hmem : e1 ∈ agentTrace .irgat q := List.getElem?_mem h1
    have := mem_agentTrace _ _ _ hmem
    rw [ha1] at this
    exact AgentId.noConfusion this
  have hj : (agentTrace .pm p).length ≤ j := by
    by_contra hlt
    push_neg at hlt
    rw [runCycleTrace, List.getElem?_append_left hlt] at h2
    have hmem : e2 ∈ agentTrace .pm p := List.getElem?_mem h2
    have := mem_agentTrace _ _ _ hmem
    rw [ha2] at this
    exact AgentId.noConfusion this
  omega

/-- Witness for C6 on the two-event-per-agent round: the planner's finish
(index 1) precedes the executor's start (index 2). -/
theorem run_cycle_order_witness :
    (1 : Nat) < 2 ∧ runSingleCycleTrace 0 0 = runCycleTrace 0 0 :=
  run_cycle_order 0 0 1 2 (.finish .pm) (.start .irgat) rfl rfl rfl rfl

/-- Draining a buffer returns exactly the buffered messages in order. -/
theorem drainLoop_fst (acks : List (String × Bool)) (l : List Message) :
    (drainLoop acks l).1 = l := by
  induction l generalizing acks with
  | nil => rfl
  | cons m rest ih => simp [drainLoop, ih]

/-- The per-pass map over the queue table keeps the key list. -/
theorem adjust_map_fst (l : List (String × ResizableQueue)) :
    (l.map (fun kq => (kq.1, adjustQueuePass MAX_QUEUE_SIZE kq.2))).map Prod.fst
      = l.map Prod.fst := by
  induction l with
  | nil => rfl
  | cons kv rest ih => simp [ih]

/-- Claim C9: `receive` on an unregistered receiver returns `None` at once
(zero wait) and `receive_all` returns `[]`, neither erroring; the queue
table is fixed at construction to exactly "pm" and "irgat", and no bus
operation adds or removes a queue key. -/
theorem unknown_receiver_and_fixed_queues (s : MessageBus) (receiver : String) (t : ℚ) :
    (lookupA receiver s.queues = none →
      receive s receiver t = { msg := none, bus := s, waited := 0 } ∧
      receive_all s receiver = ([], s)) ∧
    initBus.queues.map Prod.fst = ["pm", "irgat"] ∧
    (∀ m s' hs, send s m = some (s', hs) →
      s'.queues.map Prod.fst = s.queues.map Prod.fst) ∧
    (receive s receiver t).bus.queues.map Prod.fst = s.queues.map Prod.fst ∧
    (receive_all s receiver).2.queues.map Prod.fst = s.queues.map Prod.fst ∧
    (∀ i, (acknowledge s i).queues.map Prod.fst = s.queues.map Prod.fst) ∧
    (∀ mt h, (subscribe s mt h).queues.map Prod.fst = s.queues.map Prod.fst) ∧
    (adjust_queue_sizes s).queues.map Prod.fst = s.queues.map Prod.fst := by
  refine ⟨?_, rfl, ?_, ?_, ?_, fun i => rfl, fun mt h => rfl, ?_⟩
  · intro h
    exact ⟨by simp [receive, h], by simp [receive_all, h]⟩
  · intro m s' hs hsend
    simp only [send] at hsend
    cases hlook : lookupA m.receiver s.queues with
    | none =>
        rw [hlook] at hsend
        simp only [Option.some.injEq, Prod.mk.injEq] at hsend
        rw [← hsend.1]
    | some q =>
        rw [hlook] at hsend
        by_cases hf : q.full
        · simp [hf] at hsend
        · simp only [hf, Bool.false_eq_true, if_false, Option.some.injEq,
            Prod.mk.injEq] at hsend
          rw [← hsend.1]
          exact updateA_map_fst ..
  · cases hlook : lookupA receiver s.queues with
    | none => simp [receive, hlook]
    | some q =>
        cases hb : q.buffer with
        | nil => simp [receive, hlook, hb]
        | cons m rest =>
            simp only [receive, hlook, hb, acknowledge]
            exact updateA_map_fst ..
  · cases hlook : lookupA receiver s.queues with
    | none => simp [receive_all, hlook]
    | some q =>
        simp only [receive_all, hlook]
        exact updateA_map_fst ..
  · exact adjust_map_fst ..

/-- Witness for C9: the freshly constructed bus with the unregistered
receiver "nobody". -/
theorem unknown_receiver_witness :
    receive initBus "nobody" 5 = { msg := none, bus := initBus, waited := 0 } ∧
    receive_all initBus "nobody" = ([], initBus) :=
  (unknown_receiver_and_fixed_queues initBus "nobody" 5).1 (by decide)

/-- Every completed `send` appends exactly one history entry and one
audit-log line (file I/O modelled as succeeding; on `OSError` the code
logs and continues). -/
theorem send_history_log (s : MessageBus) (m : Message) (s' : MessageBus) (hs : List Nat)
    (h : send s m = some (s', hs)) :
    s'.history = s.history ++ [m] ∧ s'.log = s.log ++ [m] := by
  simp only [send] at h
  cases hlook : lookupA m.receiver s.queues with
  | none =>
      rw [hlook] at h
      simp only [Option.some.injEq, Prod.mk.injEq] at h
      obtain ⟨h1, -⟩ := h
      subst h1
      exact ⟨rfl, rfl⟩
  | some q =>
      rw [hlook] at h
      by_cases hf : q.full
      · simp [hf] at h
      · simp only [hf, Bool.false_eq_true, if_false, Option.some.injEq,
          Prod.mk.injEq] at h
        obtain ⟨h1, -⟩ := h
        subst h1
        exact ⟨rfl, rfl⟩

/-- `k` completed resends of `m` add `k` occurrences of `m` to the
history. -/
theorem resendN_count (m : Message) (k : Nat) :
    ∀ s s', resendN m k s = some s' →
      s'.history.count m = s.history.count m + k := by
  induction k with
  | zero =>
      intro s s' h
      simp only [resendN, Option.some.injEq] at h
      subst h
      rfl
  | succ k ih =>
      intro s s' h
      simp only [resendN] at h
      cases hsend : send s m with
      | none => rw [hsend] at h; exact absurd h (by simp)
      | some p =>
          obtain ⟨s1, hs1⟩ := p
          rw [hsend] at h
          have hh := (send_history_log s m s1 hs1 hsend).1
          have hc := ih s1 s' h
          rw [hc, hh]
          simp [List.count_append]
          omega

/-- Claim C10: every `send` — the initial routing and each retry resend —
appends one history entry and one audit-log line; after `k` resends of `m`
on top of the first send, the history holds `m` exactly `k + 1` more
times, and `get_history` can return the same message id multiple times. -/
theorem send_audit_and_duplicates (s : MessageBus) (m : Message) (k : Nat) :
    (∀ s' hs, send s m = some (s', hs) →
      s'.history = s.history ++ [m] ∧ s'.log = s.log ++ [m]) ∧
    (∀ s1 hs1 s2, send s m = some (s1, hs1) → resendN m k s1 = some s2 →
      s2.history.count m = s.history.count m + (k + 1)) ∧
    get_history { initBus with history := [m, m] } 50 = [m, m] := by
  refine ⟨fun s' hs h => send_history_log s m s' hs h, ?_, ?_⟩
  · intro s1 hs1 s2 h1 h2
    have hh := (send_history_log s m s1 hs1 h1).1
    have hc := resendN_count m k s1 s2 h2
    rw [hc, hh]
    simp [List.count_append]
    omega
  · simp [get_history, initBus]

/-- Witness for C10: a concrete send of `mPm1` followed by one resend
leaves two copies in the history. -/
theorem send_audit_and_duplicates_witness :
    (sendState initBus mPm1).history = initBus.history ++ [mPm1] ∧
    (resendStateN mPm1 1 (sendState initBus mPm1)).history.count mPm1
      = initBus.history.count mPm1 + (1 + 1) := by
  have hall := send_audit_and_duplicates initBus mPm1 1
  have h1 : send initBus mPm1
      = some (sendState initBus mPm1, handlersOf initBus mPm1.msg_type) := by decide
  have h2 : resendN mPm1 1 (sendState initBus mPm1)
      = some (resendStateN mPm1 1 (sendState initBus mPm1)) := by decide
  exact ⟨(hall.1 _ _ h1).1, hall.2.1 _ _ _ h1 h2⟩

/-- A send to a registered, non-full queue completes. -/
theorem send_isSome (s : MessageBus) (m : Message) (r : String) (q : ResizableQueue)
    (hr : m.receiver = r) (hq : lookupA r s.queues = some q) (hf : q.full = false) :
    (send s m).isSome = true := by
  simp [send, hr, hq, hf]

/-- Effect of a completed send on the target queue: the message is
appended at the tail. -/
theorem sendState_queues (s : MessageBus) (m : Message) (r : String)
    (q : ResizableQueue)
    (hr : m.receiver = r) (hq : lookupA r s.queues = some q) (hf : q.full = false) :
    lookupA r (sendState s m).queues = some { q with buffer := q.buffer ++ [m] } := by
  simp [sendState, send, hr, hq, hf, lookupA_updateA]

/-- A `receive` on a non-empty queue returns the head immediately and
leaves the tail buffered. -/
theorem receive_head (s : MessageBus) (r : String) (q : ResizableQueue)
    (m : Message) (rest : List Message) (t : ℚ)
    (hq : lookupA r s.queues = some q) (hb : q.buffer = m :: rest) :
    (receive s r t).msg = some m ∧
    lookupA r ((receive s r t).bus).queues = some { q with buffer := rest } := by
  constructor
  · simp [receive, hq, hb]
  · simp [receive, hq, hb, acknowledge, lookupA_updateA]

/-- `receive_all` returns the registered queue's buffer as is. -/
theorem receive_all_buffer (s : MessageBus) (r : String) (q : ResizableQueue)
    (hq : lookupA r s.queues = some q) :
    (receive_all s r).1 = q.buffer := by
  simp [receive_all, hq, drainLoop_fst]

/-- Claim C4: two messages sent in order to the same registered receiver
(with room for both, so no backpressure wait and no retries) are delivered
FIFO: `receive` returns `m1` strictly before any `receive` returns `m2`,
and `receive_all` drains everything buffered in send order. -/
theorem fifo_delivery (s : MessageBus) (r : String) (q : ResizableQueue)
    (m1 m2 : Message) (t : ℚ)
    (hr1 : m1.receiver = r) (hr2 : m2.receiver = r)
    (hq : lookupA r s.queues = some q)
    (hcap : q.buffer.length + 2 ≤ q.maxsize) :
    (send s m1).isSome = true ∧
    (send (sendState s m1) m2).isSome = true ∧
    (receive_all (sendState (sendState s m1) m2) r).1 = q.buffer ++ [m1, m2] ∧
    (q.buffer = [] →
      (receive (sendState (sendState s m1) m2) r t).msg = some m1 ∧
      (receive ((receive (sendState (sendState s m1) m2) r t).bus) r t).msg
        = some m2) := by
  have hfull1 : q.full = false := by
    unfold ResizableQueue.full
    split_ifs with h0
    · rfl
    · simp only [decide_eq_false_iff_not, not_le]
      omega
  have hfull2 : ({ q with buffer := q.buffer ++ [m1] } : ResizableQueue).full = false := by
    unfold ResizableQueue.full
    split_ifs with h0
    · rfl
    · simp only [decide_eq_false_iff_not, not_le, List.length_append,
        List.length_cons, List.length_nil]
      omega
  have hq1 := sendState_queues s m1 r q hr1 hq hfull1
  have hq2 := sendState_queues (sendState s m1) m2 r _ hr2 hq1 hfull2
  refine ⟨send_isSome s m1 r q hr1 hq hfull1,
    send_isSome (sendState s m1) m2 r _ hr2 hq1 hfull2, ?_, ?_⟩
  · rw [receive_all_buffer _ r _ hq2]
    simp
  · intro hb
    have hq2' : lookupA r (sendState (sendState s m1) m2).queues
        = some { q with buffer := [m1, m2] } := by
      rw [hq2, hb]
      simp
    have hrecv1 := receive_head (sendState (sendState s m1) m2) r _ m1 [m2] t hq2' rfl
    have hrecv2 := receive_head _ r _ m2 [] t hrecv1.2 rfl
    exact ⟨hrecv1.1, hrecv2.1⟩

/-- Witness for C4: both sample messages sent into the fresh bus's "pm"
queue come back in send order. -/
theorem fifo_delivery_witness :
    (receive_all (sendState (sendState initBus mPm1) mPm2) "pm").1 = [mPm1, mPm2] ∧
    (receive (sendState (sendState initBus mPm1) mPm2) "pm" 1).msg = some mPm1 ∧
    (receive ((receive (sendState (sendState initBus mPm1) mPm2) "pm" 1).bus) "pm" 1).msg
      = some mPm2 := by
  have h := fifo_delivery initBus "pm" ⟨[], MAX_QUEUE_SIZE, []⟩ mPm1 mPm2 1
    rfl rfl (by decide) (by decide)
  have h4 := h.2.2.2 rfl
  exact ⟨by simpa using h.2.2.1, h4.1, h4.2⟩

/-- Witness for C7: a concrete send to the unregistered receiver
"telegram". -/
theorem send_unregistered_receiver_witness :
    send initBus mNoQueue
      = some ({ initBus with
                  history := initBus.history ++ [mNoQueue],
                  log := initBus.log ++ [mNoQueue] },
          handlersOf initBus mNoQueue.msg_type) ∧
    ∀ s' hs, send initBus mNoQueue = some (s', hs) →
      s'.acknowledgments = initBus.acknowledgments ∧ s'.queues = initBus.queues ∧
      hs = handlersOf initBus mNoQueue.msg_type :=
  send_unregistered_receiver initBus mNoQueue (by decide)
